import Mathlib

/-!
Shallow embedding of the reserve-planner core (src/planner.py) and proofs about it.

Modelling conventions:
- Python ints are `Int`; Python floats are modelled as exact rationals `ℚ`
  (the planner only adds, multiplies, divides and rounds them);
- Python dicts are association lists `List (key × value)` in insertion order,
  with `List.lookup` as `dict.get` (keys are unique in every dict the source
  builds, so first-match lookup agrees with dict lookup);
- `datetime` values are opaque day identifiers `Int` (the core only compares
  them for equality and sorts by them);
- the in-place mutations `build_allocations` performs (name back-fill on the
  reserve, `base_demand` back-fill on the template) are modelled by computing
  the updated copies up front (`seedNames`, `fillBase`); `pack_trucks` reads
  only `max_pallets` and `shoulder_map`, which those mutations never touch;
- the unbounded `while pallets_left > 0` loop of `pack_trucks` is modelled
  with an explicit iteration budget (`fuel`); `none` means the budget was
  exhausted, so "returns `none` for every fuel" is exactly "the source loop
  does not terminate".
-/

/-- Record of one demand cell (src/planner.py, class DemandRow). -/
structure DemandRow where
  rc : Int
  rc_name : String
  plu : Int
  plu_name : String
  date : Int
  qty : ℚ
deriving DecidableEq

/-- Aggregated demand key (rc, plu, date) as used throughout the source. -/
abbrev DKey := Int × Int × Int

/-- Reserve/catalog data (src/planner.py, class ReserveInfo). -/
structure ReserveInfo where
  supplier_name : List (Int × String) := []
  plu_name : List (Int × String) := []
  rc_name : List (Int × String) := []
  pallet_weight : List (Int × ℚ) := []
  max_pallets : List (Int × Int) := []
  reserve : List ((Int × Int) × ℚ) := []
  suppliers_by_plu : List (Int × List Int) := []
deriving DecidableEq

/-- One historical template entry (src/planner.py, class TemplateEntry). -/
structure TemplateEntry where
  pallets_by_supplier : List (Int × Int) := []
  total_pallets : Int := 0
  base_demand : Int := 0
deriving DecidableEq

/-- Historical template data (src/planner.py, class TemplateData). -/
structure TemplateData where
  entries : List (DKey × TemplateEntry) := []
  shoulder_map : List ((Int × Int) × Int) := []
  supplier_name : List (Int × String) := []
  plu_name : List (Int × String) := []
  rc_name : List (Int × String) := []
  pallet_weight : List (Int × ℚ) := []
deriving DecidableEq

/-- One (demand-key, supplier) allocation (src/planner.py, class AllocationItem). -/
structure AllocationItem where
  rc : Int
  rc_name : String
  plu : Int
  plu_name : String
  date : Int
  supplier : Int
  supplier_name : String
  pallet_weight : ℚ
  pallets : Int
deriving DecidableEq

/-- One truck-slice output row (src/planner.py, class OutputRow). -/
structure OutputRow where
  date : Int
  supplier : Int
  supplier_name : String
  plu : Int
  plu_name : String
  rc : Int
  rc_name : String
  volume : ℚ
  truck_id : Int
  shoulder : Int
  pallet_weight : ℚ
  pallets : Int
deriving DecidableEq

/-- Run configuration (src/planner.py, class RunOptions). -/
structure RunOptions where
  use_template : Bool := true
  scale_template : Bool := true
  include_template_without_demand : Bool := true
  use_template_when_no_demand : Bool := true
  ignore_reserve_limits : Bool := true
  default_truck_pallets : Int := 32
deriving DecidableEq

/-- Floor of a rational, computably: q.num / q.den with integer (Euclidean)
division, which is the mathematical floor since q.den > 0. -/
def ratFloor (q : ℚ) : Int := q.num / (q.den : Int)

/-- Ceiling of a rational, computably, as used for Python math.ceil
(src/planner.py line 350; the source applies it to a float quotient,
modelled here as the exact rational quotient). -/
def ratCeil (q : ℚ) : Int := -ratFloor (-q)

/-- Python round() (banker's rounding, round-half-to-even) on the exact
rational value of the argument. Used for round(new_demand) in _scale_pallets
(line 281) and int(round(...)) in build_allocations (line 328). -/
def pyRound (q : ℚ) : Int :=
  let f := ratFloor q
  let r := q - (f : ℚ)
  if r < 1/2 then f
  else if (1:ℚ)/2 < r then f + 1
  else if f % 2 = 0 then f else f + 1

/-- Embedding of _round_div (src/planner.py lines 132-135). The source text is
int((numer + denom / 2) // denom); denom / 2 is Python float division, modelled
here by the exact rational value, whose floor is (2*numer + denom) fdiv
(2*denom). fdiv is Python's floor division //. -/
def round_div (numer denom : Int) : Int :=
  if denom ≤ 0 then 0
  else (2 * numer + denom).fdiv (2 * denom)

/-- Stable insertion into a list: x is placed before the first y with le x y,
so elements equal under the sort key keep their original relative order. -/
def insertSorted {α : Type} (le : α → α → Bool) (x : α) : List α → List α
  | [] => [x]
  | y :: ys => if le x y then x :: y :: ys else y :: insertSorted le x ys

/-- Stable sort (insertion sort), modelling Python's stable list.sort /
sorted(). -/
def sortBy {α : Type} (le : α → α → Bool) (l : List α) : List α :=
  l.foldr (insertSorted le) []

/-- Update the (unique) entry of an association list at key k by f; models a
Python dict item update scaled[k] = f(scaled[k]). -/
def bumpKey (f : Int → Int) : List (Int × Int) → Int → List (Int × Int)
  | [], _ => []
  | p :: rest, k => if p.1 == k then (p.1, f p.2) :: rest else p :: bumpKey f rest k

/-- Embedding of _scale_pallets (src/planner.py lines 278-307), the Template
Scaler. The source fills scaled and remainders in one loop over the dict
items; here they are two maps over the same association list, producing the
same keys in the same order with the same values. demand_value is the Python
float argument, modelled as an exact rational. -/
def scale_pallets (pallets_by_supplier : List (Int × Int)) (base_demand : Int)
    (demand_value : ℚ) : List (Int × Int) :=
  let demand_int : Int := max 0 (pyRound demand_value)
  if base_demand ≤ 0 ∨ demand_int ≤ 0 then []
  else
    let total_pallets := (pallets_by_supplier.map (·.2)).sum
    let desired_total := round_div (total_pallets * demand_int) base_demand
    let scaled := pallets_by_supplier.map
      (fun p => (p.1, (p.2 * demand_int).fdiv base_demand))
    let remainders := pallets_by_supplier.map
      (fun p => (p.1, (p.2 * demand_int).fmod base_demand))
    let total_scaled := (scaled.map (·.2)).sum
    let delta := desired_total - total_scaled
    let scaled2 :=
      if 0 < delta then
        ((sortBy (fun a b => b.2 ≤ a.2) remainders).take delta.toNat).foldl
          (fun m p => bumpKey (· + 1) m p.1) scaled
      else if delta < 0 then
        ((sortBy (fun a b => a.2 ≤ b.2) remainders).take (-delta).toNat).foldl
          (fun m p => bumpKey (fun v => max 0 (v - 1)) m p.1) scaled
      else scaled
    scaled2.filter (fun p => 0 < p.2)

/-- Loop state of pack_trucks: the next fresh truck id (Python truck_id,
line 415), the remaining capacity of the truck being filled (line 418) and
the id of the truck being filled (current_truck, line 419). -/
structure PackState where
  truckNext : Int
  remaining : Int
  currentTruck : Int
deriving DecidableEq

/-- Embedding of the inner while-loop of pack_trucks (src/planner.py lines
426-452) for one allocation item. fuel bounds the number of iterations:
none means the bound was hit, so the source loop has not terminated within
fuel iterations. -/
def packLoop (cap supplier : Int) (item : AllocationItem) (shoulder : Int) :
    Nat → Int → PackState → Option (List OutputRow × PackState)
  | fuel, palletsLeft, st =>
    if palletsLeft ≤ 0 then some ([], st)
    else
      match fuel with
      | 0 => none
      | fuel + 1 =>
        let st1 := if st.remaining = 0 then
          PackState.mk (st.truckNext + 1) cap st.truckNext else st
        let tk := min st1.remaining palletsLeft
        let row : OutputRow :=
          { date := item.date, supplier := supplier,
            supplier_name := item.supplier_name,
            plu := item.plu, plu_name := item.plu_name,
            rc := item.rc, rc_name := item.rc_name,
            volume := (tk : ℚ) * item.pallet_weight,
            truck_id := st1.currentTruck, shoulder := shoulder,
            pallet_weight := item.pallet_weight, pallets := tk }
        match packLoop cap supplier item shoulder fuel (palletsLeft - tk)
            (PackState.mk st1.truckNext (st1.remaining - tk) st1.currentTruck) with
        | none => none
        | some (rows, st2) => some (row :: rows, st2)

/-- The shoulder value for an output row (src/planner.py lines 434-436). -/
def shoulderOf (tmpl : Option TemplateData) (supplier rc : Int) : Int :=
  match tmpl with
  | some t => (t.shoulder_map.lookup (supplier, rc)).getD 1
  | none => 1

/-- Embedding of the per-supplier item loop of pack_trucks (lines 424-452):
runs packLoop for each item in order, threading the state. The fuel for one
item's loop is its pallet count; when the effective capacity is at least 1
the loop consumes at least one pallet per iteration, so this bound is exact
(packLoop_some below), and when it is not, no finite bound terminates the
source loop (packLoop_none_of_cap_nonpos below). -/
def packItems (cap supplier : Int) (tmpl : Option TemplateData) :
    List AllocationItem → PackState → Option (List OutputRow × PackState)
  | [], st => some ([], st)
  | item :: rest, st =>
    match packLoop cap supplier item (shoulderOf tmpl supplier item.rc)
        item.pallets.toNat item.pallets st with
    | none => none
    | some (rows, st1) =>
      match packItems cap supplier tmpl rest st1 with
      | none => none
      | some (rows2, st2) => some (rows ++ rows2, st2)

/-- The effective truck capacity for a supplier (src/planner.py line 417):
reserve.max_pallets.get(supplier, options.default_truck_pallets). -/
def capFor (reserve : ReserveInfo) (options : RunOptions) (supplier : Int) : Int :=
  (reserve.max_pallets.lookup supplier).getD options.default_truck_pallets

/-- Keys of a Python dict built with setdefault-append, in first-seen order
(models grouped's key order, lines 410-412). -/
def firstSeen (l : List Int) : List Int :=
  l.foldl (fun acc x => if x ∈ acc then acc else acc ++ [x]) []

/-- The sort key of line 420-423: (date, rc, plu) ascending, lexicographic,
as a may-precede relation for the stable sort. -/
def itemLe (a b : AllocationItem) : Bool :=
  decide (a.date < b.date ∨ (a.date = b.date ∧
    (a.rc < b.rc ∨ (a.rc = b.rc ∧ a.plu ≤ b.plu))))

/-- The supplier loop of pack_trucks (lines 414-452): processes suppliers in
the given order, threading the global truck counter; remaining and
current_truck restart at 0 for each supplier. -/
def packGo (items : List AllocationItem) (reserve : ReserveInfo)
    (tmpl : Option TemplateData) (options : RunOptions) :
    List Int → Int → Option (List OutputRow)
  | [], _ => some []
  | s :: rest, truckNext =>
    let itemsS := sortBy itemLe (items.filter (fun it => it.supplier == s))
    match packItems (capFor reserve options s) s tmpl itemsS
        (PackState.mk truckNext 0 0) with
    | none => none
    | some (rows, st) =>
      match packGo items reserve tmpl options rest st.truckNext with
      | none => none
      | some rows2 => some (rows ++ rows2)

/-- Embedding of pack_trucks (src/planner.py lines 403-454). Suppliers are
grouped in first-seen order and then processed in sorted ascending order
(line 416); the truck id counter starts at 1. -/
def pack_trucks (items : List AllocationItem) (reserve : ReserveInfo)
    (tmpl : Option TemplateData) (options : RunOptions) :
    Option (List OutputRow) :=
  packGo items reserve tmpl options
    (sortBy (fun a b => decide (a ≤ b)) (firstSeen (items.map (·.supplier)))) 1

/-- Python dict update-or-insert m[k] = m.get(k, 0) + q (line 320): an
existing entry is updated in place, a new key is appended. -/
def addQty (m : List (DKey × ℚ)) (k : DKey) (q : ℚ) : List (DKey × ℚ) :=
  if (m.lookup k).isSome then
    m.map (fun p => if p.1 == k then (p.1, p.2 + q) else p)
  else m ++ [(k, q)]

/-- Aggregation of demand by key (src/planner.py lines 317-320). -/
def demandByKey (rows : List DemandRow) : List (DKey × ℚ) :=
  rows.foldl (fun m row => addQty m (row.rc, row.plu, row.date) row.qty) []

/-- Python dict.setdefault(k, v): insert only when the key is absent. -/
def setdefaultA {β : Type} (m : List (Int × β)) (k : Int) (v : β) :
    List (Int × β) :=
  if (m.lookup k).isSome then m else m ++ [(k, v)]

/-- The name back-fill loop of build_allocations (lines 318-324): seed
reserve.rc_name / reserve.plu_name from demand rows carrying a non-empty
name. The source mutates reserve in place; this returns the updated copy. -/
def seedNames (reserve : ReserveInfo) (rows : List DemandRow) : ReserveInfo :=
  rows.foldl (fun r row =>
    let r1 := if row.rc_name ≠ "" then
      { r with rc_name := setdefaultA r.rc_name row.rc row.rc_name } else r
    if row.plu_name ≠ "" then
      { r1 with plu_name := setdefaultA r1.plu_name row.plu row.plu_name }
    else r1) reserve

/-- The base_demand back-fill (lines 326-328): every template entry gets
base_demand = int(round(aggregated demand at its key, default 0.0)). -/
def fillBase (t : TemplateData) (dem : List (DKey × ℚ)) : TemplateData :=
  { t with entries := t.entries.map (fun p =>
      (p.1, { p.2 with base_demand := pyRound ((dem.lookup p.1).getD 0) })) }

/-- Pallet weight resolution (lines 333-337 and line 380): reserve value if
present and non-zero (Python truthiness), else template value if present and
non-zero, else 1.0. An absent key and a stored 0.0 are both falsy in the
source and both modelled by the default 0 here. -/
def palletWeightFor (reserve : ReserveInfo) (tmpl : Option TemplateData)
    (plu : Int) : ℚ :=
  let w0 := (reserve.pallet_weight.lookup plu).getD 0
  let w1 := if w0 ≠ 0 then w0 else
    match tmpl with
    | some t => (t.pallet_weight.lookup plu).getD 0
    | none => 0
  if w1 = 0 then 1 else w1

/-- Supplier display-name resolution (lines 358-360 and 384): reserve name if
present and non-empty, else template name. Python's None result (absent
template key with `or` short-circuit) is modelled as the empty string; the
name is passthrough metadata never branched on afterwards. -/
def supplierNameFor (reserve : ReserveInfo) (tmpl : Option TemplateData)
    (supplier : Int) : String :=
  let n := (reserve.supplier_name.lookup supplier).getD ""
  if n ≠ "" then n else
    match tmpl with
    | some t => (t.supplier_name.lookup supplier).getD ""
    | none => ""

/-- The per-supplier split for one demand record (src/planner.py lines
339-353). Note the source passes row.qty — the single record's quantity —
to the scaler and to the ceil fallback, not the aggregated quantity. -/
def rowSplit (reserve : ReserveInfo) (tmpl : Option TemplateData)
    (options : RunOptions) (row : DemandRow) (pw : ℚ) : List (Int × Int) :=
  let entryOpt : Option TemplateEntry :=
    match tmpl with
    | some t =>
      if options.use_template then t.entries.lookup (row.rc, row.plu, row.date)
      else none
    | none => none
  match entryOpt with
  | some entry =>
    if options.scale_template ∧ 0 < entry.base_demand then
      scale_pallets entry.pallets_by_supplier entry.base_demand row.qty
    else if options.use_template_when_no_demand ∨ ¬ options.scale_template then
      entry.pallets_by_supplier
    else []
  | none =>
    let pallets_total := ratCeil (row.qty / pw)
    match (reserve.suppliers_by_plu.lookup row.plu).getD [] with
    | [] => []
    | s :: _ => if s ≠ 0 then [(s, pallets_total)] else []

/-- The allocation items one demand record contributes (lines 331-373):
entries of the record's split with pallets > 0, with resolved names. -/
def itemsForRow (reserve : ReserveInfo) (tmpl : Option TemplateData)
    (options : RunOptions) (row : DemandRow) : List AllocationItem :=
  let pw := palletWeightFor reserve tmpl row.plu
  (rowSplit reserve tmpl options row pw).filterMap (fun p =>
    if p.2 ≤ 0 then none
    else some
      { rc := row.rc, rc_name := (reserve.rc_name.lookup row.rc).getD row.rc_name,
        plu := row.plu,
        plu_name := (reserve.plu_name.lookup row.plu).getD row.plu_name,
        date := row.date, supplier := p.1,
        supplier_name := supplierNameFor reserve tmpl p.1,
        pallet_weight := pw, pallets := p.2 })

/-- The template-without-demand pass (src/planner.py lines 375-397): template
entries whose key has no demand contribute their historical split directly. -/
def templateTail (reserve : ReserveInfo) (tmpl : Option TemplateData)
    (options : RunOptions) (dem : List (DKey × ℚ)) : List AllocationItem :=
  match tmpl with
  | none => []
  | some t =>
    if options.use_template ∧ options.include_template_without_demand then
      t.entries.flatMap (fun p =>
        if (dem.lookup p.1).isSome then []
        else
          let pw := palletWeightFor reserve (some t) p.1.2.1
          p.2.pallets_by_supplier.filterMap (fun q =>
            if q.2 ≤ 0 then none
            else some
              { rc := p.1.1,
                rc_name := (reserve.rc_name.lookup p.1.1).getD
                  ((t.rc_name.lookup p.1.1).getD ""),
                plu := p.1.2.1,
                plu_name := (reserve.plu_name.lookup p.1.2.1).getD
                  ((t.plu_name.lookup p.1.2.1).getD ""),
                date := p.1.2.2, supplier := q.1,
                supplier_name := supplierNameFor reserve (some t) q.1,
                pallet_weight := pw, pallets := q.2 }))
    else []

/-- Embedding of build_allocations (src/planner.py lines 310-400). The item
loop (line 331) iterates over the demand records themselves, one split per
record; the aggregated map demand_by_key is used only for the template
base_demand back-fill and the without-demand membership test. -/
def build_allocations (demand : List DemandRow) (reserve : ReserveInfo)
    (tmpl : Option TemplateData) (options : RunOptions) : List AllocationItem :=
  let dem := demandByKey demand
  let reserveS := seedNames reserve demand
  let tmplF := tmpl.map (fun t => fillBase t dem)
  demand.flatMap (itemsForRow reserveS tmplF options) ++
    templateTail reserveS tmplF options dem

/-- The core pipeline run_plan drives (lines 511-512): build_allocations then
pack_trucks. pack_trucks reads only max_pallets and shoulder_map, which the
in-place name/base_demand back-fills never touch, so it receives the
original reserve and template here. -/
def run_core (demand : List DemandRow) (reserve : ReserveInfo)
    (tmpl : Option TemplateData) (options : RunOptions) :
    Option (List OutputRow) :=
  pack_trucks (build_allocations demand reserve tmpl options) reserve tmpl options

/-- The truck ids of a row list, in output order. -/
def rowIds (rows : List OutputRow) : List Int := rows.map (·.truck_id)

/-- Total pallets of the output rows carrying truck id t. -/
def sumFor (rows : List OutputRow) (t : Int) : Int :=
  ((rows.filter (fun r => r.truck_id == t)).map (·.pallets)).sum

/-- Total pallets over a list of output rows. -/
def palletsSum (rows : List OutputRow) : Int := (rows.map (·.pallets)).sum

/-- Total pallets over a list of allocation items. -/
def itemsPallets (items : List AllocationItem) : Int :=
  (items.map (·.pallets)).sum

/-- Default run options (all template switches on, default capacity 32). -/
def exOpts : RunOptions := {}

/-- Run options with default_truck_pallets configured to 0. -/
def exOptsCap0 : RunOptions := { default_truck_pallets := 0 }

/-- A demand record for rc 1, plu 1, date 0 with quantity q and no names. -/
def exRow (q : ℚ) : DemandRow :=
  { rc := 1, rc_name := "", plu := 1, plu_name := "", date := 0, qty := q }

/-- A catalog whose only content is that plu 1 is held by supplier 7. -/
def exReserveB : ReserveInfo := { suppliers_by_plu := [(1, [7])] }

/-- A catalog with a present-but-zero max-pallets entry for supplier 7. -/
def exReserveZeroCap : ReserveInfo := { max_pallets := [(7, 0)] }

/-- A catalog with max-pallets 9 recorded for supplier 5. -/
def exReserveCap9 : ReserveInfo := { max_pallets := [(5, 9)] }

/-- A one-pallet allocation item for supplier 7 (weight 1). -/
def exItem : AllocationItem :=
  { rc := 1, rc_name := "", plu := 1, plu_name := "", date := 0,
    supplier := 7, supplier_name := "", pallet_weight := 1, pallets := 1 }

/-- Run options with default_truck_pallets configured to 4. -/
def exOpts4 : RunOptions := { default_truck_pallets := 4 }

/-- A 3-pallet allocation item for supplier 3 (weight 1). -/
def exItemA : AllocationItem :=
  { rc := 1, rc_name := "", plu := 1, plu_name := "", date := 0,
    supplier := 3, supplier_name := "", pallet_weight := 1, pallets := 3 }

/-- A 5-pallet allocation item for supplier 7 (weight 2). -/
def exItemB : AllocationItem :=
  { rc := 1, rc_name := "", plu := 1, plu_name := "", date := 0,
    supplier := 7, supplier_name := "", pallet_weight := 2, pallets := 5 }

/-- The rows pack_trucks produces for [exItemB, exItemA] with empty catalog
and default capacity 4: supplier 3 fills truck 1 with 3 pallets; supplier 7
fills truck 2 with 4 pallets and truck 3 with the remaining 1. -/
def exRows : List OutputRow :=
  [{ date := 0, supplier := 3, supplier_name := "", plu := 1, plu_name := "",
     rc := 1, rc_name := "", volume := 3, truck_id := 1, shoulder := 1,
     pallet_weight := 1, pallets := 3 },
   { date := 0, supplier := 7, supplier_name := "", plu := 1, plu_name := "",
     rc := 1, rc_name := "", volume := 8, truck_id := 2, shoulder := 1,
     pallet_weight := 2, pallets := 4 },
   { date := 0, supplier := 7, supplier_name := "", plu := 1, plu_name := "",
     rc := 1, rc_name := "", volume := 2, truck_id := 3, shoulder := 1,
     pallet_weight := 2, pallets := 1 }]

/-- The smallest truck id the packer may still write to from state st: the
truck currently being filled when it has room, the next fresh id otherwise. -/
def lbState (st : PackState) : Int :=
  if 0 < st.remaining then st.currentTruck else st.truckNext

/-- Invariant of the packer state: remaining capacity lies in [0, max cap 0]
(0 before a supplier's first truck is opened, whatever the capacity), the
truck counter started at 1, and while a truck is being filled it is the most
recently opened one. -/
def StInv (cap : Int) (st : PackState) : Prop :=
  0 ≤ st.remaining ∧ st.remaining ≤ max cap 0 ∧ 1 ≤ st.truckNext ∧
    (0 < st.remaining → st.currentTruck + 1 = st.truckNext)

/-- Capacity truck t can still absorb from state st on: cap for trucks not
yet opened, the remaining room for the truck being filled, 0 for trucks
already left behind. -/
def budget (cap : Int) (st : PackState) (t : Int) : Int :=
  if st.truckNext ≤ t then cap
  else if 0 < st.remaining ∧ t = st.currentTruck then st.remaining
  else 0

/-- What one packer segment (for one supplier, capacity cap) guarantees about
the rows it emits between states st and st': the state invariant is kept, the
truck counter moves forward, row ids fall in the window the segment owns,
ids are nondecreasing with every freshly opened id used, the per-truck pallet
accounting matches the budget drop, and each row is a real slice (at least
one pallet, volume = pallets x pallet weight, emitted for this supplier). -/
def PackSeg (cap supplier : Int) (st st' : PackState)
    (rows : List OutputRow) : Prop :=
  StInv cap st' ∧ st.truckNext ≤ st'.truckNext ∧ lbState st ≤ lbState st' ∧
  (rows ≠ [] → 1 ≤ cap) ∧
  (∀ r ∈ rows, lbState st ≤ r.truck_id ∧ r.truck_id < st'.truckNext ∧
    r.supplier = supplier ∧ 1 ≤ r.pallets ∧
    r.volume = (r.pallets : ℚ) * r.pallet_weight) ∧
  List.Chain' (· ≤ ·) (rowIds rows) ∧
  (∀ t : Int, st.truckNext ≤ t → t < st'.truckNext → t ∈ rowIds rows) ∧
  (∀ t : Int, sumFor rows t = budget cap st t - budget cap st' t)

example : pyRound (2/5 : ℚ) = 0 := by with_unfolding_all decide
example : pyRound (15 : ℚ) = 15 := by with_unfolding_all decide
example : round_div 150 10 = 15 := by decide
example : scale_pallets [(1, 6), (2, 4)] 10 15 = [(1, 9), (2, 6)] := by with_unfolding_all decide
example : scale_pallets [(1, 1)] 100 (2/5) = [] := by with_unfolding_all decide

/-- ratFloor agrees with the mathematical floor. -/
theorem ratFloor_eq (q : ℚ) : ratFloor q = ⌊q⌋ := Rat.floor_def.symm

/-- ratCeil agrees with the mathematical ceiling. -/
theorem ratCeil_eq (q : ℚ) : ratCeil q = ⌈q⌉ := by
  rw [ratCeil, ratFloor_eq, Int.floor_neg, neg_neg]

/-- A positive rational has ceiling at least 1. -/
theorem ratCeil_pos {q : ℚ} (h : 0 < q) : 1 ≤ ratCeil q := by
  rw [ratCeil_eq]
  exact Int.ceil_pos.mpr h

/-- C8: the Template Scaler returns the empty mapping whenever
max(0, round(new_demand)) = 0 or base_demand ≤ 0, for every historical
split. -/
theorem scaler_empty_on_degenerate_input (pbs : List (Int × Int)) (B : Int)
    (q : ℚ) (h : max 0 (pyRound q) = 0 ∨ B ≤ 0) :
    scale_pallets pbs B q = [] := by
  have hcond : B ≤ 0 ∨ max 0 (pyRound q) ≤ 0 :=
    h.elim (fun h0 => Or.inr (le_of_eq h0)) Or.inl
  unfold scale_pallets
  rw [if_pos hcond]

/-- C8 witness: scale({A:1}, base_demand 100, new_demand 0.4) is empty. -/
theorem scaler_empty_on_degenerate_input_witness :
    scale_pallets [(1, 1)] 100 (2/5) = [] :=
  scaler_empty_on_degenerate_input [(1, 1)] 100 (2/5)
    (Or.inl (by with_unfolding_all decide))

/-- C4 counterexample: a max-pallets entry that is present but zero is used
as capacity 0; it does not fall back to default_truck_pallets (32 here). -/
theorem capacity_zero_entry_counterexample :
    capFor exReserveZeroCap exOpts 7 = 0 ∧
    capFor exReserveZeroCap exOpts 7 ≠ exOpts.default_truck_pallets := by
  constructor
  · decide
  · decide

/-- C4 amended: the packer's capacity for a supplier is the catalog
max-pallets entry whenever one is present — whatever its value, zero
included — and config.default_truck_pallets only when no entry is present. -/
theorem capacity_selection (reserve : ReserveInfo) (options : RunOptions)
    (s : Int) :
    (∀ v, reserve.max_pallets.lookup s = some v → capFor reserve options s = v) ∧
    (reserve.max_pallets.lookup s = none →
      capFor reserve options s = options.default_truck_pallets) := by
  constructor
  · intro v hv
    simp [capFor, hv]
  · intro hv
    simp [capFor, hv]

/-- C4 amended witness: supplier 5 has entry 9 and gets capacity 9; supplier
6 has no entry and gets the default 32. -/
theorem capacity_selection_witness :
    capFor exReserveCap9 exOpts 5 = 9 ∧ capFor exReserveCap9 exOpts 6 = 32 :=
  ⟨(capacity_selection exReserveCap9 exOpts 5).1 9 rfl,
   (capacity_selection exReserveCap9 exOpts 6).2 rfl⟩

/-- With non-positive effective capacity, non-positive remaining capacity and
pallets still to place, the pack_trucks inner loop never finishes: every
iteration budget is exhausted. Each pass adds a zero-take row and opens a
fresh truck without ever decreasing pallets_left. -/
theorem packLoop_none_of_cap_nonpos (cap supplier : Int)
    (item : AllocationItem) (sh : Int) :
    ∀ (fuel : Nat) (pl : Int) (st : PackState), cap ≤ 0 → 0 < pl →
      st.remaining ≤ 0 → packLoop cap supplier item sh fuel pl st = none := by
  intro fuel
  induction fuel with
  | zero =>
    intro pl st hcap hpl hrem
    unfold packLoop
    rw [if_neg (by omega)]
  | succ fuel ih =>
    intro pl st hcap hpl hrem
    unfold packLoop
    rw [if_neg (by omega)]
    by_cases h0 : st.remaining = 0
    · have hmin : min cap pl = cap := min_eq_left (by omega)
      simp only [h0, if_pos rfl, if_true, hmin]
      rw [ih (pl - cap) (PackState.mk (st.truckNext + 1) (cap - cap) st.truckNext)
        hcap (by omega) (by simp)]
    · have hmin : min st.remaining pl = st.remaining := min_eq_left (by omega)
      simp only [if_neg h0, hmin]
      rw [ih (pl - st.remaining)
        (PackState.mk st.truckNext (st.remaining - st.remaining) st.currentTruck)
        hcap (by omega) (by simp)]

/-- C2: the pipeline is not total. With default_truck_pallets configured to 0
and a supplier absent from the catalog's max-pallets (so effective capacity
0) and one pallet of demand, the pack_trucks inner while-loop runs forever:
no iteration budget completes it, and the whole pipeline produces no output
row list. The claim says this degenerate case is handled by fallback, never
failing; the code instead fails to terminate. -/
theorem pipeline_diverges_on_zero_capacity :
    (∀ fuel : Nat, packLoop 0 7 exItem 1 fuel 1 (PackState.mk 1 0 0) = none) ∧
    run_core [exRow 1] exReserveB none exOptsCap0 = none := by
  constructor
  · intro fuel
    exact packLoop_none_of_cap_nonpos 0 7 exItem 1 fuel 1
      (PackState.mk 1 0 0) le_rfl one_pos le_rfl
  · with_unfolding_all decide

/-- C1 counterexample: two demand records sharing the key (rc 1, plu 1,
date 0), each of quantity 1.5, pallet weight defaulting to 1, with fallback
supplier 7. The claim requires exactly one split per aggregated key, of
ceil(3.0 / 1) = 3 pallets; the code emits one split per record, two items of
2 pallets each. -/
theorem per_record_split_counterexample :
    (build_allocations [exRow (3/2), exRow (3/2)] exReserveB none exOpts).map
        (fun it => (it.supplier, it.pallets)) = [(7, 2), (7, 2)] ∧
    ratCeil ((3/2 + 3/2 : ℚ) / 1) = 3 ∧
    (build_allocations [exRow (3/2), exRow (3/2)] exReserveB none exOpts).length ≠ 1 := by
  refine ⟨?_, ?_, ?_⟩
  · with_unfolding_all decide
  · with_unfolding_all decide
  · with_unfolding_all decide

/-- C1 amended: Step 3 iterates over individual demand records, not
aggregated keys — each record yields its own split from that record's qty
(in the no-template fallback, ceil(record_qty / pallet_weight) pallets for
the first catalog supplier); records sharing a key yield one split each. -/
theorem per_record_split (q1 q2 : ℚ) (h1 : 0 < q1) (h2 : 0 < q2) :
    (build_allocations [exRow q1, exRow q2] exReserveB none exOpts).map
        (fun it => (it.supplier, it.pallets)) =
      [(7, ratCeil q1), (7, ratCeil q2)] := by
  have c1 : 1 ≤ ratCeil q1 := ratCeil_pos h1
  have c2 : 1 ≤ ratCeil q2 := ratCeil_pos h2
  unfold build_allocations templateTail itemsForRow rowSplit palletWeightFor
  simp [exRow, exReserveB, exOpts, seedNames, demandByKey, addQty, div_one,
    List.lookup, show ¬ ratCeil q1 ≤ 0 by omega, show ¬ ratCeil q2 ≤ 0 by omega]

/-- C1 amended witness: at quantities 1.5 and 1.5 the two records produce
two splits of ceil(1.5) = 2 pallets each for supplier 7. -/
theorem per_record_split_witness :
    (build_allocations [exRow (3/2), exRow (3/2)] exReserveB none exOpts).map
        (fun it => (it.supplier, it.pallets)) =
      [(7, ratCeil (3/2)), (7, ratCeil (3/2))] :=
  per_record_split (3/2) (3/2) (by norm_num) (by norm_num)

/-- Two option records agreeing on default_truck_pallets give the same
effective capacity. -/
theorem capFor_congr {o o' : RunOptions}
    (h : o.default_truck_pallets = o'.default_truck_pallets)
    (reserve : ReserveInfo) (s : Int) :
    capFor reserve o s = capFor reserve o' s := by
  unfold capFor
  rw [h]

/-- rowSplit reads only use_template, scale_template and
use_template_when_no_demand from the options. -/
theorem rowSplit_congr {o o' : RunOptions}
    (h1 : o.use_template = o'.use_template)
    (h2 : o.scale_template = o'.scale_template)
    (h4 : o.use_template_when_no_demand = o'.use_template_when_no_demand)
    (reserve : ReserveInfo) (tmpl : Option TemplateData) (row : DemandRow)
    (pw : ℚ) :
    rowSplit reserve tmpl o row pw = rowSplit reserve tmpl o' row pw := by
  unfold rowSplit
  rw [h1, h2, h4]

/-- itemsForRow reads only the three rowSplit options. -/
theorem itemsForRow_congr {o o' : RunOptions}
    (h1 : o.use_template = o'.use_template)
    (h2 : o.scale_template = o'.scale_template)
    (h4 : o.use_template_when_no_demand = o'.use_template_when_no_demand)
    (reserve : ReserveInfo) (tmpl : Option TemplateData) :
    itemsForRow reserve tmpl o = itemsForRow reserve tmpl o' := by
  funext row
  unfold itemsForRow
  simp only [rowSplit_congr h1 h2 h4]

/-- templateTail reads only use_template and include_template_without_demand. -/
theorem templateTail_congr {o o' : RunOptions}
    (h1 : o.use_template = o'.use_template)
    (h3 : o.include_template_without_demand = o'.include_template_without_demand)
    (reserve : ReserveInfo) (tmpl : Option TemplateData)
    (dem : List (DKey × ℚ)) :
    templateTail reserve tmpl o dem = templateTail reserve tmpl o' dem := by
  unfold templateTail
  rw [h1, h3]

/-- build_allocations never reads ignore_reserve_limits. -/
theorem build_allocations_congr {o o' : RunOptions}
    (h1 : o.use_template = o'.use_template)
    (h2 : o.scale_template = o'.scale_template)
    (h3 : o.include_template_without_demand = o'.include_template_without_demand)
    (h4 : o.use_template_when_no_demand = o'.use_template_when_no_demand)
    (demand : List DemandRow) (reserve : ReserveInfo)
    (tmpl : Option TemplateData) :
    build_allocations demand reserve tmpl o =
      build_allocations demand reserve tmpl o' := by
  unfold build_allocations
  simp only [templateTail_congr h1 h3, itemsForRow_congr h1 h2 h4]

/-- packGo never reads ignore_reserve_limits. -/
theorem packGo_congr {o o' : RunOptions}
    (h6 : o.default_truck_pallets = o'.default_truck_pallets)
    (items : List AllocationItem) (reserve : ReserveInfo)
    (tmpl : Option TemplateData) :
    ∀ (suppliers : List Int) (tn : Int),
      packGo items reserve tmpl o suppliers tn =
        packGo items reserve tmpl o' suppliers tn := by
  intro suppliers
  induction suppliers with
  | nil => intro tn; rfl
  | cons s rest ih =>
    intro tn
    unfold packGo
    rw [capFor_congr h6]
    simp only [ih]

/-- pack_trucks never reads ignore_reserve_limits. -/
theorem pack_trucks_congr {o o' : RunOptions}
    (h6 : o.default_truck_pallets = o'.default_truck_pallets)
    (items : List AllocationItem) (reserve : ReserveInfo)
    (tmpl : Option TemplateData) :
    pack_trucks items reserve tmpl o = pack_trucks items reserve tmpl o' := by
  unfold pack_trucks
  exact packGo_congr h6 items reserve tmpl _ 1

/-- C9: ignore_reserve_limits has no effect — the core pipeline
(build_allocations then pack_trucks) produces identical output rows for
either value of the flag, all other configuration fields equal. -/
theorem ignore_reserve_limits_noop (demand : List DemandRow)
    (reserve : ReserveInfo) (tmpl : Option TemplateData) (o : RunOptions)
    (b : Bool) :
    run_core demand reserve tmpl { o with ignore_reserve_limits := b } =
      run_core demand reserve tmpl o := by
  have hb : build_allocations demand reserve tmpl
        { o with ignore_reserve_limits := b } =
      build_allocations demand reserve tmpl o :=
    build_allocations_congr rfl rfl rfl rfl demand reserve tmpl
  have hp : pack_trucks (build_allocations demand reserve tmpl o) reserve tmpl
        { o with ignore_reserve_limits := b } =
      pack_trucks (build_allocations demand reserve tmpl o) reserve tmpl o :=
    pack_trucks_congr
      (show ({ o with ignore_reserve_limits := b }).default_truck_pallets =
        o.default_truck_pallets from rfl)
      (build_allocations demand reserve tmpl o) reserve tmpl
  unfold run_core
  rw [hb, hp]

/-- Floor division is superadditive: a/B + b/B ≤ (a+b)/B for B > 0. -/
theorem ediv_add_ediv_le {B : Int} (hB : 0 < B) (a b : Int) :
    a / B + b / B ≤ (a + b) / B := by
  rw [Int.le_ediv_iff_mul_le hB, add_mul]
  have h1 := Int.ediv_mul_le a (b := B) (by omega)
  have h2 := Int.ediv_mul_le b (b := B) (by omega)
  omega

/-- Floor division loses at most 1 against splitting: (a+b)/B ≤ a/B + b/B + 1. -/
theorem ediv_add_le {B : Int} (hB : 0 < B) (a b : Int) :
    (a + b) / B ≤ a / B + b / B + 1 := by
  have h := (Int.ediv_lt_iff_lt_mul (a := a + b) (b := a / B + b / B + 2) hB).mpr
  have h1 := Int.lt_ediv_add_one_mul_self a hB
  have h2 := Int.lt_ediv_add_one_mul_self b hB
  have := h (by nlinarith)
  omega

/-- Sum of floor quotients is at most the floor quotient of the sum. -/
theorem sum_map_ediv_le {B : Int} (hB : 0 < B) (l : List Int) :
    (l.map (· / B)).sum ≤ l.sum / B := by
  induction l with
  | nil => simp
  | cons a l ih =>
    simp only [List.map_cons, List.sum_cons]
    have h2 := ediv_add_ediv_le hB a l.sum
    omega

/-- The floor quotient of a sum exceeds the sum of floor quotients by at most
the number of extra summands. -/
theorem sum_ediv_le {B : Int} (hB : 0 < B) (a : Int) (l : List Int) :
    (a + l.sum) / B ≤ a / B + (l.map (· / B)).sum + (l.length : Int) := by
  induction l generalizing a with
  | nil => simp
  | cons b l ih =>
    simp only [List.map_cons, List.sum_cons, List.length_cons]
    have h1 : a + (b + l.sum) = (a + b) + l.sum := by ring
    have h2 := ih (a + b)
    have h3 := ediv_add_le hB a b
    rw [h1]
    push_cast
    omega

/-- Round-half-up of a/B is at least the floor of a/B. -/
theorem le_round_div {B : Int} (hB : 0 < B) (a : Int) :
    a / B ≤ round_div a B := by
  unfold round_div
  rw [if_neg (by omega), Int.fdiv_eq_ediv _ (by positivity)]
  rw [Int.le_ediv_iff_mul_le (by positivity)]
  have := Int.ediv_mul_le a (b := B) (by omega)
  nlinarith

/-- Round-half-up of a/B is at most the floor of a/B plus one. -/
theorem round_div_le {B : Int} (hB : 0 < B) (a : Int) :
    round_div a B ≤ a / B + 1 := by
  unfold round_div
  rw [if_neg (by omega), Int.fdiv_eq_ediv _ (by positivity)]
  have h := (Int.ediv_lt_iff_lt_mul (a := 2 * a + B) (b := a / B + 2)
    (by positivity : (0 : Int) < 2 * B)).mpr
  have h1 := Int.lt_ediv_add_one_mul_self a hB
  have := h (by nlinarith)
  omega

/-- round_div of 0 is 0. -/
theorem round_div_zero {B : Int} (hB : 0 < B) : round_div 0 B = 0 := by
  unfold round_div
  rw [if_neg (by omega), Int.fdiv_eq_ediv _ (by positivity)]
  exact Int.ediv_eq_zero_of_lt (by omega) (by omega)

/-- bumpKey does not change the key list. -/
theorem bumpKey_keys (f : Int → Int) (m : List (Int × Int)) (k : Int) :
    (bumpKey f m k).map (·.1) = m.map (·.1) := by
  induction m with
  | nil => rfl
  | cons p rest ih =>
    unfold bumpKey
    by_cases h : p.1 == k
    · simp [h]
    · simp only [h, Bool.false_eq_true, if_false, List.map_cons, ih]

/-- Bumping a present key by one raises the value sum by one. -/
theorem bumpKey_sum_add_one (m : List (Int × Int)) (k : Int)
    (hk : k ∈ m.map (·.1)) :
    ((bumpKey (· + 1) m k).map (·.2)).sum = (m.map (·.2)).sum + 1 := by
  induction m with
  | nil => simp at hk
  | cons p rest ih =>
    unfold bumpKey
    by_cases h : p.1 = k
    · simp only [h, beq_self_eq_true, if_true, List.map_cons, List.sum_cons]
      ring
    · have h' : (p.1 == k) = false := by simp [h]
      have hk' : k ∈ rest.map (·.1) := by
        simp only [List.map_cons, List.mem_cons] at hk
        exact hk.resolve_left (fun he => h he.symm)
      simp only [h', Bool.false_eq_true, if_false, List.map_cons, List.sum_cons,
        ih hk']
      ring

/-- bumpKey with +1 preserves value non-negativity. -/
theorem bumpKey_nonneg {m : List (Int × Int)} {k : Int}
    (h : ∀ p ∈ m, 0 ≤ p.2) : ∀ p ∈ bumpKey (· + 1) m k, 0 ≤ p.2 := by
  induction m with
  | nil => intro p hp; simp [bumpKey] at hp
  | cons q rest ih =>
    intro p hp
    unfold bumpKey at hp
    by_cases hq : q.1 == k
    · rw [if_pos hq] at hp
      rcases List.mem_cons.1 hp with rfl | hmem
      · have := h q (by simp)
        simp only []
        omega
      · exact h p (by simp [hmem])
    · rw [if_neg (by simp_all)] at hp
      rcases List.mem_cons.1 hp with rfl | hmem
      · exact h p (by simp)
      · exact ih (fun r hr => h r (by simp [hr])) p hmem

/-- Folding +1 bumps over keys each present in m raises the value sum by the
number of bumps. -/
theorem foldl_bump_sum (sel : List (Int × Int)) :
    ∀ m : List (Int × Int), (∀ p ∈ sel, p.1 ∈ m.map (·.1)) →
    ((sel.foldl (fun m p => bumpKey (· + 1) m p.1) m).map (·.2)).sum
      = (m.map (·.2)).sum + (sel.length : Int) := by
  induction sel with
  | nil => intro m _; simp
  | cons p sel ih =>
    intro m hmem
    simp only [List.foldl_cons, List.length_cons]
    have h1 : p.1 ∈ m.map (·.1) := hmem p (by simp)
    have hrest : ∀ q ∈ sel, q.1 ∈ (bumpKey (· + 1) m p.1).map (·.1) := by
      intro q hq
      rw [bumpKey_keys]
      exact hmem q (by simp [hq])
    rw [ih _ hrest, bumpKey_sum_add_one m p.1 h1]
    push_cast
    ring

/-- Folding +1 bumps preserves value non-negativity. -/
theorem foldl_bump_nonneg (sel : List (Int × Int)) :
    ∀ m : List (Int × Int), (∀ p ∈ m, 0 ≤ p.2) →
    ∀ p ∈ sel.foldl (fun m p => bumpKey (· + 1) m p.1) m, 0 ≤ p.2 := by
  induction sel with
  | nil => intro m hm; simpa using hm
  | cons q sel ih =>
    intro m hm
    simp only [List.foldl_cons]
    exact ih _ (bumpKey_nonneg hm)

/-- Filtering out non-positive values does not change the sum when every
value is non-negative. -/
theorem sum_filter_pos (m : List (Int × Int)) (h : ∀ p ∈ m, 0 ≤ p.2) :
    ((m.filter (fun p => 0 < p.2)).map (·.2)).sum = (m.map (·.2)).sum := by
  induction m with
  | nil => rfl
  | cons p rest ih
 =>
    have hp := h p (by simp)
    have hr : ∀ q ∈ rest, 0 ≤ q.2 := fun q hq => h q (by simp [hq])
    by_cases h0 : 0 < p.2
    · simp [List.filter_cons, h0, ih hr]
    · have hz : p.2 = 0 := by omega
      simp [List.filter_cons, h0, ih hr, hz]

/-- Stable insertion produces a permutation of consing. -/
theorem insertSorted_perm {α : Type} (le : α → α → Bool) (x : α) (l : List α) :
    (insertSorted le x l).Perm (x :: l) := by
  induction l with
  | nil => simp [insertSorted]
  | cons y ys ih =>
    unfold insertSorted
    by_cases h : le x y
    · simp [h]
    · simp only [h, Bool.false_eq_true, if_false]
      exact (ih.cons y).trans (List.Perm.swap x y ys)

/-- The stable sort is a permutation of its input. -/
theorem sortBy_perm {α : Type} (le : α → α → Bool) (l : List α) :
    (sortBy le l).Perm l := by
  induction l with
  | nil => simp [sortBy]
  | cons x xs ih =>
    unfold sortBy at ih ⊢
    simp only [List.foldr_cons]
    exact (insertSorted_perm le x _).trans (ih.cons x)

/-- C3: the Template Scaler preserves totals. For a historical split with
non-negative pallet counts (pairwise keys as a Python dict provides), base
demand > 0 and rounded new demand > 0, the values of the result sum exactly
to desired_total = round-half-up(total_old * demand_int / base_demand).
Under these hypotheses delta is never negative (floor is superadditive), so
the clamp-below-zero branch the claim excludes is never taken. -/
theorem scaler_preserves_total (l : List (Int × Int)) (B : Int) (q : ℚ)
    (hB : 0 < B) (hD : 0 < max 0 (pyRound q)) (hvals : ∀ p ∈ l, 0 ≤ p.2) :
    ((scale_pallets l B q).map (·.2)).sum =
      round_div ((l.map (·.2)).sum * max 0 (pyRound q)) B := by
  have hfd : ∀ a : Int, a.fdiv B = a / B := fun a => Int.fdiv_eq_ediv a hB.le
  unfold scale_pallets
  rw [if_neg (by omega)]
  simp only [hfd]
  set D := max 0 (pyRound q) with hDdef
  set scaled := l.map (fun p => (p.1, p.2 * D / B)) with hsc
  set rem := l.map (fun p => (p.1, (p.2 * D).fmod B)) with hrem
  set T := (scaled.map (·.2)).sum with hT
  set dt := round_div ((l.map (·.2)).sum * D) B with hdt
  have hTeq : T = ((l.map (fun p => p.2 * D)).map (· / B)).sum := by
    rw [hT, hsc, List.map_map, List.map_map]
    rfl
  have hSeq : (l.map (·.2)).sum * D = (l.map (fun p => p.2 * D)).sum := by
    rw [← List.sum_map_mul_right]
  have hscnn : ∀ p ∈ scaled, 0 ≤ p.2 := by
    intro p hp
    rw [hsc] at hp
    obtain ⟨p0, hp0, rfl⟩ := List.mem_map.1 hp
    exact Int.ediv_nonneg (mul_nonneg (hvals p0 hp0) (by omega)) hB.le
  have hTle : T ≤ dt := by
    rw [hTeq, hdt, hSeq]
    exact le_trans (sum_map_ediv_le hB _) (le_round_div hB _)
  have hdtle : dt ≤ T + (l.length : Int) := by
    rw [hdt, hSeq, hTeq]
    cases l with
    | nil =>
      simp [round_div_zero hB]
    | cons p l' =>
      simp only [List.map_cons, List.sum_cons, List.length_cons]
      have h1 := round_div_le hB (p.2 * D + (l'.map (fun p => p.2 * D)).sum)
      have h2 := sum_ediv_le hB (p.2 * D) (l'.map (fun p => p.2 * D))
      rw [List.map_map] at h2
      rw [List.map_map]
      push_cast
      simp only [List.length_map] at h2
      omega
  by_cases hpos : 0 < dt - T
  · rw [if_pos hpos]
    set sel := (sortBy (fun a b => b.2 ≤ a.2) rem).take (dt - T).toNat with hsel
    have hperm := sortBy_perm (fun a b => (b.2 ≤ a.2 : Bool)) rem
    have hsort_len : (sortBy (fun a b => (b.2 ≤ a.2 : Bool)) rem).length = l.length := by
      rw [hperm.length_eq, hrem, List.length_map]
    have hsel_len : sel.length = (dt - T).toNat := by
      rw [hsel, List.length_take, hsort_len]
      have : (dt - T).toNat ≤ l.length := by omega
      omega
    have hkeys : ∀ p ∈ sel, p.1 ∈ scaled.map (·.1) := by
      intro p hp
      have hmem : p ∈ rem := hperm.mem_iff.1 (List.mem_of_mem_take hp)
      rw [hrem] at hmem
      obtain ⟨p0, hp0, rfl⟩ := List.mem_map.1 hmem
      rw [hsc, List.map_map]
      exact List.mem_map.2 ⟨p0, hp0, rfl⟩
    rw [sum_filter_pos _ (foldl_bump_nonneg sel scaled hscnn),
      foldl_bump_sum sel scaled hkeys, hsel_len, ← hT,
      Int.toNat_of_nonneg (by omega)]
    omega
  · rw [if_neg hpos, if_neg (by omega)]
    rw [sum_filter_pos _ hscnn, ← hT]
    omega

/-- C3 witness: the spec's happy-path example. Split {1:6, 2:4}, base demand
10, new demand 15: the result is {1:9, 2:6}, whose values sum to
desired_total = round_div(10*15, 10) = 15 exactly. -/
theorem scaler_preserves_total_witness :
    ((scale_pallets [(1, 6), (2, 4)] 10 15).map (·.2)).sum =
      round_div ((([(1, 6), (2, 4)] : List (Int × Int)).map (·.2)).sum *
        max 0 (pyRound 15)) 10 ∧
    scale_pallets [(1, 6), (2, 4)] 10 15 = [(1, 9), (2, 6)] ∧
    round_div ((([(1, 6), (2, 4)] : List (Int × Int)).map (·.2)).sum *
      max 0 (pyRound 15)) 10 = 15 :=
  ⟨scaler_preserves_total [(1, 6), (2, 4)] 10 15 (by decide)
      (by with_unfolding_all decide) (by decide),
    by with_unfolding_all decide, by with_unfolding_all decide⟩

/-- The inner loop returns immediately when no pallets remain to place. -/
theorem packLoop_nonpos (cap supplier : Int) (item : AllocationItem)
    (sh : Int) (fuel : Nat) (pl : Int) (st : PackState) (h : pl ≤ 0) :
    packLoop cap supplier item sh fuel pl st = some ([], st) := by
  unfold packLoop
  cases fuel <;> rw [if_pos h]

/-- The inner loop with exhausted budget and pallets left reports none. -/
theorem packLoop_zero_pos (cap supplier : Int) (item : AllocationItem)
    (sh : Int) (pl : Int) (st : PackState) (h : 0 < pl) :
    packLoop cap supplier item sh 0 pl st = none := by
  unfold packLoop
  rw [if_neg (by omega)]

/-- One unfolding of the inner loop when pallets remain to place. -/
theorem packLoop_succ_pos (cap supplier : Int) (item : AllocationItem)
    (sh : Int) (fuel : Nat) (pl : Int) (st : PackState) (h : 0 < pl) :
    packLoop cap supplier item sh (fuel + 1) pl st =
      (let st1 := if st.remaining = 0 then
          PackState.mk (st.truckNext + 1) cap st.truckNext else st
       let tk := min st1.remaining pl
       match packLoop cap supplier item sh fuel (pl - tk)
           (PackState.mk st1.truckNext (st1.remaining - tk) st1.currentTruck) with
       | none => none
       | some (rows, st2) => some
          ({ date := item.date, supplier := supplier,
             supplier_name := item.supplier_name,
             plu := item.plu, plu_name := item.plu_name,
             rc := item.rc, rc_name := item.rc_name,
             volume := (tk : ℚ) * item.pallet_weight,
             truck_id := st1.currentTruck, shoulder := sh,
             pallet_weight := item.pallet_weight, pallets := tk } :: rows, st2)) := by
  conv_lhs => unfold packLoop
  rw [if_neg (by omega)]

/-- rowIds distributes over cons. -/
theorem rowIds_cons (r : OutputRow) (rows : List OutputRow) :
    rowIds (r :: rows) = r.truck_id :: rowIds rows := rfl

/-- rowIds distributes over append. -/
theorem rowIds_append (l1 l2 : List OutputRow) :
    rowIds (l1 ++ l2) = rowIds l1 ++ rowIds l2 := by
  unfold rowIds
  rw [List.map_append]

/-- sumFor distributes over cons. -/
theorem sumFor_cons (r : OutputRow) (rows : List OutputRow) (t : Int) :
    sumFor (r :: rows) t =
      (if r.truck_id = t then r.pallets else 0) + sumFor rows t := by
  unfold sumFor
  rw [List.filter_cons]
  by_cases h : r.truck_id = t
  · simp [h]
  · simp [h]

/-- sumFor distributes over append. -/
theorem sumFor_append (l1 l2 : List OutputRow) (t : Int) :
    sumFor (l1 ++ l2) t = sumFor l1 t + sumFor l2 t := by
  unfold sumFor
  rw [List.filter_append, List.map_append, List.sum_append]

/-- A truck id no row carries sums to zero. -/
theorem sumFor_eq_zero {rows : List OutputRow} {t : Int}
    (h : ∀ r ∈ rows, r.truck_id ≠ t) : sumFor rows t = 0 := by
  unfold sumFor
  have : rows.filter (fun r => r.truck_id == t) = [] := by
    apply List.filter_eq_nil_iff.2
    intro r hr
    simp [h r hr]
  rw [this]
  rfl

/-- palletsSum distributes over cons. -/
theorem palletsSum_cons (r : OutputRow) (rows : List OutputRow) :
    palletsSum (r :: rows) = r.pallets + palletsSum rows := rfl

/-- palletsSum distributes over append. -/
theorem palletsSum_append (l1 l2 : List OutputRow) :
    palletsSum (l1 ++ l2) = palletsSum l1 + palletsSum l2 := by
  unfold palletsSum
  rw [List.map_append, List.sum_append]

/-- lbState lies within one of the truck counter. -/
theorem lbState_ge (cap : Int) {st : PackState} (h : StInv cap st) :
    st.truckNext - 1 ≤ lbState st ∧ lbState st ≤ st.truckNext := by
  obtain ⟨h0, h1, h2, h3⟩ := h
  unfold lbState
  split_ifs with hr
  · have := h3 hr
    omega
  · omega

/-- The empty packer segment. -/
theorem PackSeg_nil {cap supplier : Int} {st : PackState}
    (hinv : StInv cap st) : PackSeg cap supplier st st [] := by
  refine ⟨hinv, le_refl _, le_refl _, by simp, by simp, by simp [rowIds], ?_, ?_⟩
  · intro t h1 h2
    omega
  · intro t
    rw [sub_self]
    exact sumFor_eq_zero (by simp)

/-- Packer segments compose. -/
theorem PackSeg_trans {cap supplier : Int} {st st1 st2 : PackState}
    {rows1 rows2 : List OutputRow}
    (h1 : PackSeg cap supplier st st1 rows1)
    (h2 : PackSeg cap supplier st1 st2 rows2) :
    PackSeg cap supplier st st2 (rows1 ++ rows2) := by
  obtain ⟨hi1, htn1, hlb1, hc1, hm1, hch1, hcov1, hsum1⟩ := h1
  obtain ⟨hi2, htn2, hlb2, hc2, hm2, hch2, hcov2, hsum2⟩ := h2
  have hmid := lbState_ge cap hi1
  refine ⟨hi2, le_trans htn1 htn2, le_trans hlb1 hlb2, ?_, ?_, ?_, ?_, ?_⟩
  · intro hne
    rcases rows1 with _ | ⟨r, rs⟩
    · exact hc2 (by simpa using hne)
    · exact hc1 (by simp)
  · intro r hr
    rcases List.mem_append.1 hr with h | h
    · obtain ⟨ha, hb, hc, hd, he⟩ := hm1 r h
      exact ⟨ha, lt_of_lt_of_le hb htn2, hc, hd, he⟩
    · obtain ⟨ha, hb, hc, hd, he⟩ := hm2 r h
      exact ⟨le_trans hlb1 ha, hb, hc, hd, he⟩
  · rw [rowIds_append, List.chain'_append]
    refine ⟨hch1, hch2, ?_⟩
    intro x hx y hy
    rw [Option.mem_def] at hx hy
    have hx1 : x ∈ rowIds rows1 := List.mem_of_getLast?_eq_some hx
    have hy1 : y ∈ rowIds rows2 := List.mem_of_mem_head? hy
    obtain ⟨r, hr, rfl⟩ := List.mem_map.1 hx1
    obtain ⟨r2, hr2, rfl⟩ := List.mem_map.1 hy1
    have hxr := hm1 r hr
    have hyr := hm2 r2 hr2
    omega
  · intro t h1t h2t
    rw [rowIds_append, List.mem_append]
    by_cases hmid2 : t < st1.truckNext
    · exact Or.inl (hcov1 t h1t hmid2)
    · exact Or.inr (hcov2 t (by omega) h2t)
  · intro t
    rw [sumFor_append, hsum1 t, hsum2 t]
    ring

/-- Extending a packer segment on the left by one row. -/
theorem PackSeg_cons {cap supplier : Int} {st st2 st' : PackState}
    {r : OutputRow} {rows0 : List OutputRow}
    (hseg : PackSeg cap supplier st2 st' rows0)
    (hcap : 1 ≤ cap)
    (hid_lb : lbState st ≤ r.truck_id)
    (hid_ub : r.truck_id < st2.truckNext)
    (hid_lb2 : r.truck_id ≤ lbState st2)
    (hsup : r.supplier = supplier)
    (hpal : 1 ≤ r.pallets)
    (hvol : r.volume = (r.pallets : ℚ) * r.pallet_weight)
    (htn : st.truckNext ≤ st2.truckNext)
    (hcov_head : ∀ t, st.truckNext ≤ t → t < st2.truckNext → t = r.truck_id)
    (hbud : ∀ t, budget cap st t =
      (if r.truck_id = t then r.pallets else 0) + budget cap st2 t) :
    PackSeg cap supplier st st' (r :: rows0) := by
  obtain ⟨hi2, htn2, hlb2, hc2, hm2, hch2, hcov2, hsum2⟩ := hseg
  refine ⟨hi2, le_trans htn htn2, ?_, fun _ => hcap, ?_, ?_, ?_, ?_⟩
  · exact le_trans (le_trans hid_lb hid_lb2) hlb2
  · intro r' hr'
    rcases List.mem_cons.1 hr' with rfl | h
    · exact ⟨hid_lb, lt_of_lt_of_le hid_ub htn2, hsup, hpal, hvol⟩
    · obtain ⟨ha, hb, hc, hd, he⟩ := hm2 r' h
      exact ⟨le_trans (le_trans hid_lb hid_lb2) ha, hb, hc, hd, he⟩
  · rw [rowIds_cons, List.chain'_cons']
    refine ⟨?_, hch2⟩
    intro y hy
    have hy1 : y ∈ rowIds rows0 := List.mem_of_mem_head? hy
    obtain ⟨r2, hr2, rfl⟩ := List.mem_map.1 hy1
    have := (hm2 r2 hr2).1
    omega
  · intro t h1t h2t
    rw [rowIds_cons]
    by_cases hmid : t < st2.truckNext
    · exact (hcov_head t h1t hmid).symm ▸ List.mem_cons_self _ _
    · exact List.mem_cons_of_mem _ (hcov2 t (by omega) h2t)
  · intro t
    rw [sumFor_cons, hsum2 t, hbud t]
    ring

/-- Full specification of one successful run of the pack_trucks inner loop:
starting from an invariant state it emits a well-formed packer segment whose
rows all carry this item's pallet weight and whose pallets sum to the pallets
placed. -/
theorem packLoop_spec (cap supplier : Int) (item : AllocationItem) (sh : Int) :
    ∀ (fuel : Nat) (pl : Int) (st : PackState) (rows : List OutputRow)
      (st' : PackState),
      packLoop cap supplier item sh fuel pl st = some (rows, st') →
      StInv cap st →
      PackSeg cap supplier st st' rows ∧
      (∀ r ∈ rows, r.pallet_weight = item.pallet_weight) ∧
      palletsSum rows = max 0 pl := by
  intro fuel
  induction fuel with
  | zero =>
    intro pl st rows st' hrun hinv
    by_cases hpl : pl ≤ 0
    · rw [packLoop_nonpos _ _ _ _ _ _ _ hpl] at hrun
      simp only [Option.some.injEq, Prod.mk.injEq] at hrun
      obtain ⟨rfl, rfl⟩ := hrun
      exact ⟨PackSeg_nil hinv, by simp, (max_eq_left hpl).symm⟩
    · rw [packLoop_zero_pos _ _ _ _ _ _ (by omega)] at hrun
      exact absurd hrun (by simp)
  | succ fuel ih =>
    intro pl st rows st' hrun hinv
    by_cases hpl : pl ≤ 0
    · rw [packLoop_nonpos _ _ _ _ _ _ _ hpl] at hrun
      simp only [Option.some.injEq, Prod.mk.injEq] at hrun
      obtain ⟨rfl, rfl⟩ := hrun
      exact ⟨PackSeg_nil hinv, by simp, (max_eq_left hpl).symm⟩
    · push_neg at hpl
      rw [packLoop_succ_pos _ _ _ _ _ _ _ hpl] at hrun
      obtain ⟨hr0, hr1, hr2, hr3⟩ := hinv
      by_cases hrem : st.remaining = 0
      · simp only [hrem, eq_self_iff_true, if_true] at hrun
        rcases hrec : packLoop cap supplier item sh fuel
            (pl - min (PackState.mk (st.truckNext + 1) cap st.truckNext).remaining pl)
            (PackState.mk (PackState.mk (st.truckNext + 1) cap st.truckNext).truckNext
              ((PackState.mk (st.truckNext + 1) cap st.truckNext).remaining -
                min (PackState.mk (st.truckNext + 1) cap st.truckNext).remaining pl)
              (PackState.mk (st.truckNext + 1) cap st.truckNext).currentTruck)
          with _ | ⟨rows0, st2⟩
        · rw [hrec] at hrun
          exact absurd hrun (by simp)
        · rw [hrec] at hrun
          simp only [Option.some.injEq, Prod.mk.injEq] at hrun
          obtain ⟨rfl, rfl⟩ := hrun
          dsimp only at hrec
          have hcap : 1 ≤ cap := by
            by_contra hc
            push_neg at hc
            rw [packLoop_none_of_cap_nonpos _ _ _ _ _ _ _ (by omega)
              (by omega) (by dsimp only; omega)] at hrec
            exact absurd hrec (by simp)
          have hinv2 : StInv cap (PackState.mk (st.truckNext + 1)
              (cap - min cap pl) st.truckNext) := by
            refine ⟨?_, ?_, ?_, ?_⟩ <;> first | omega | (dsimp only; omega)
          obtain ⟨hseg0, hpw0, hsum0⟩ := ih _ _ _ _ hrec hinv2
          refine ⟨?_, ?_, ?_⟩
          · refine PackSeg_cons hseg0 hcap ?_ ?_ ?_ rfl ?_ rfl ?_ ?_ ?_
            · unfold lbState
              try dsimp only
              split_ifs <;> omega
            · try dsimp only
              omega
            · unfold lbState
              try dsimp only
              split_ifs <;> omega
            · try dsimp only
              omega
            · try dsimp only
              omega
            · intro t h1 h2
              try dsimp only at h1 h2 ⊢
              omega
            · intro t
              unfold budget
              try dsimp only
              split_ifs <;> omega
          · intro r hr
            rcases List.mem_cons.1 hr with rfl | h
            · rfl
            · exact hpw0 r h
          · rw [palletsSum_cons, hsum0]
            try dsimp only
            omega
      · simp only [hrem, if_false] at hrun
        rcases hrec : packLoop cap supplier item sh fuel (pl - min st.remaining pl)
            (PackState.mk st.truckNext (st.remaining - min st.remaining pl)
              st.currentTruck)
          with _ | ⟨rows0, st2⟩
        · rw [hrec] at hrun
          exact absurd hrun (by simp)
        · rw [hrec] at hrun
          simp only [Option.some.injEq, Prod.mk.injEq] at hrun
          obtain ⟨rfl, rfl⟩ := hrun
          have hct := hr3 (by omega)
          have hcap : 1 ≤ cap := by omega
          have hinv2 : StInv cap (PackState.mk st.truckNext
              (st.remaining - min st.remaining pl) st.currentTruck) := by
            refine ⟨?_, ?_, ?_, ?_⟩ <;> first | omega | (dsimp only; omega)
          obtain ⟨hseg0, hpw0, hsum0⟩ := ih _ _ _ _ hrec hinv2
          refine ⟨?_, ?_, ?_⟩
          · refine PackSeg_cons hseg0 hcap ?_ ?_ ?_ rfl ?_ rfl ?_ ?_ ?_
            · unfold lbState
              try dsimp only
              split_ifs <;> omega
            · try dsimp only
              omega
            · unfold lbState
              try dsimp only
              split_ifs <;> omega
            · try dsimp only
              omega
            · try dsimp only
              omega
            · intro t h1 h2
              try dsimp only at h1 h2 ⊢
              omega
            · intro t
              unfold budget
              try dsimp only
              split_ifs <;> omega
          · intro r hr
            rcases List.mem_cons.1 hr with rfl | h
            · rfl
            · exact hpw0 r h
          · rw [palletsSum_cons, hsum0]
            try dsimp only
            omega

/-- With capacity at least 1, pallets_left iterations of fuel always complete
the inner loop: every pass places at least one pallet. -/
theorem packLoop_some (cap supplier : Int) (item : AllocationItem) (sh : Int)
    (hcap : 1 ≤ cap) :
    ∀ (fuel : Nat) (pl : Int) (st : PackState), 0 ≤ st.remaining →
      pl.toNat ≤ fuel →
      ∃ out, packLoop cap supplier item sh fuel pl st = some out := by
  intro fuel
  induction fuel with
  | zero =>
    intro pl st h0 hf
    exact ⟨([], st), packLoop_nonpos _ _ _ _ _ _ _ (by omega)⟩
  | succ fuel ih =>
    intro pl st h0 hf
    by_cases hpl : pl ≤ 0
    · exact ⟨([], st), packLoop_nonpos _ _ _ _ _ _ _ hpl⟩
    · push_neg at hpl
      rw [packLoop_succ_pos _ _ _ _ _ _ _ hpl]
      by_cases hrem : st.remaining = 0
      · simp only [hrem, eq_self_iff_true, if_true]
        obtain ⟨⟨rows0, st2⟩, hout⟩ := ih (pl - min cap pl)
          (PackState.mk (st.truckNext + 1) (cap - min cap pl) st.truckNext)
          (by dsimp only; omega) (by omega)
        rw [hout]
        exact ⟨_, rfl⟩
      · simp only [hrem, if_false]
        obtain ⟨⟨rows0, st2⟩, hout⟩ := ih (pl - min st.remaining pl)
          (PackState.mk st.truckNext (st.remaining - min st.remaining pl)
            st.currentTruck)
          (by dsimp only; omega) (by omega)
        rw [hout]
        exact ⟨_, rfl⟩

/-- Specification of a successful packItems run for one supplier: a packer
segment whose pallets sum to the (clamped) pallets of its items. -/
theorem packItems_spec (cap supplier : Int) (tmpl : Option TemplateData) :
    ∀ (items : List AllocationItem) (st : PackState) (rows : List OutputRow)
      (st' : PackState),
      packItems cap supplier tmpl items st = some (rows, st') →
      StInv cap st →
      PackSeg cap supplier st st' rows ∧
      palletsSum rows = (items.map (fun it => max 0 it.pallets)).sum := by
  intro items
  induction items with
  | nil =>
    intro st rows st' hrun hinv
    unfold packItems at hrun
    simp only [Option.some.injEq, Prod.mk.injEq] at hrun
    obtain ⟨rfl, rfl⟩ := hrun
    exact ⟨PackSeg_nil hinv, by simp [palletsSum]⟩
  | cons item rest ih =>
    intro st rows st' hrun hinv
    unfold packItems at hrun
    rcases hrec : packLoop cap supplier item (shoulderOf tmpl supplier item.rc)
        item.pallets.toNat item.pallets st with _ | ⟨rows1, st1⟩
    · rw [hrec] at hrun
      exact absurd hrun (by simp)
    · rw [hrec] at hrun
      dsimp only at hrun
      rcases hrec2 : packItems cap supplier tmpl rest st1 with _ | ⟨rows2, st2⟩
      · rw [hrec2] at hrun
        exact absurd hrun (by simp)
      · rw [hrec2] at hrun
        dsimp only at hrun
        simp only [Option.some.injEq, Prod.mk.injEq] at hrun
        obtain ⟨rfl, rfl⟩ := hrun
        obtain ⟨hseg1, _, hsum1⟩ := packLoop_spec _ _ _ _ _ _ _ _ _ hrec hinv
        obtain ⟨hseg2, hsum2⟩ := ih _ _ _ hrec2 hseg1.1
        refine ⟨PackSeg_trans hseg1 hseg2, ?_⟩
        rw [palletsSum_append, hsum1, hsum2, List.map_cons, List.sum_cons]

/-- With capacity at least 1 packItems always succeeds, preserving the state
invariant. -/
theorem packItems_some (cap supplier : Int) (tmpl : Option TemplateData)
    (hcap : 1 ≤ cap) :
    ∀ (items : List AllocationItem) (st : PackState), StInv cap st →
      ∃ rows st', packItems cap supplier tmpl items st = some (rows, st') ∧
        StInv cap st' := by
  intro items
  induction items with
  | nil =>
    intro st hinv
    exact ⟨[], st, rfl, hinv⟩
  | cons item rest ih =>
    intro st hinv
    obtain ⟨⟨rows1, st1⟩, hout⟩ := packLoop_some cap supplier item
      (shoulderOf tmpl supplier item.rc) hcap item.pallets.toNat item.pallets
      st hinv.1 le_rfl
    have hinv1 : StInv cap st1 :=
      (packLoop_spec _ _ _ _ _ _ _ _ _ hout hinv).1.1
    obtain ⟨rows2, st2, hrest, hinv2⟩ := ih st1 hinv1
    refine ⟨rows1 ++ rows2, st2, ?_, hinv2⟩
    unfold packItems
    rw [hout]
    dsimp only
    rw [hrest]

/-- Membership in the first-seen fold. -/
theorem firstSeen_aux (l : List Int) :
    ∀ (acc : List Int) (x : Int),
      x ∈ l.foldl (fun acc y => if y ∈ acc then acc else acc ++ [y]) acc ↔
        x ∈ acc ∨ x ∈ l := by
  induction l with
  | nil => intro acc x; simp
  | cons y l ih =>
    intro acc x
    rw [List.foldl_cons, ih]
    by_cases hy : y ∈ acc
    · rw [if_pos hy]
      constructor
      · rintro (h | h)
        · exact Or.inl h
        · exact Or.inr (List.mem_cons_of_mem y h)
      · rintro (h | h)
        · exact Or.inl h
        · rcases List.mem_cons.1 h with rfl | h
          · exact Or.inl hy
          · exact Or.inr h
    · rw [if_neg hy]
      constructor
      · rintro (h | h)
        · rcases List.mem_append.1 h with h | h
          · exact Or.inl h
          · simp at h
            exact Or.inr (h ▸ List.mem_cons_self y l)
        · exact Or.inr (List.mem_cons_of_mem y h)
      · rintro (h | h)
        · exact Or.inl (List.mem_append_left _ h)
        · rcases List.mem_cons.1 h with rfl | h
          · exact Or.inl (List.mem_append_right _ (by simp))
          · exact Or.inr h

/-- firstSeen keeps exactly the members of its input. -/
theorem firstSeen_mem (l : List Int) (x : Int) : x ∈ firstSeen l ↔ x ∈ l := by
  unfold firstSeen
  rw [firstSeen_aux]
  simp

/-- The first-seen fold keeps the accumulator duplicate-free. -/
theorem firstSeen_nodup_aux (l : List Int) :
    ∀ acc : List Int, acc.Nodup →
      (l.foldl (fun acc y => if y ∈ acc then acc else acc ++ [y]) acc).Nodup := by
  induction l with
  | nil => intro acc h; simpa using h
  | cons y l ih =>
    intro acc h
    rw [List.foldl_cons]
    by_cases hy : y ∈ acc
    · rw [if_pos hy]
      exact ih acc h
    · rw [if_neg hy]
      refine ih _ ?_
      simp [List.nodup_append, h, hy]

/-- firstSeen produces a duplicate-free list. -/
theorem firstSeen_nodup (l : List Int) : (firstSeen l).Nodup :=
  firstSeen_nodup_aux l [] List.nodup_nil

/-- Sum of a one-point indicator over a list avoiding the point. -/
theorem sum_map_ite_zero (S : List Int) (x c : Int) (hx : x ∉ S) :
    (S.map (fun s => if x = s then c else 0)).sum = 0 := by
  induction S with
  | nil => rfl
  | cons s S ih =>
    have hxs : x ≠ s := fun h => hx (h ▸ List.mem_cons_self s S)
    have hxS : x ∉ S := fun h => hx (List.mem_cons_of_mem s h)
    simp [hxs, ih hxS]

/-- Sum of a one-point indicator over a duplicate-free list containing the
point. -/
theorem sum_map_ite_single (S : List Int) (hS : S.Nodup) (x c : Int)
    (hx : x ∈ S) :
    (S.map (fun s => if x = s then c else 0)).sum = c := by
  induction S with
  | nil => simp at hx
  | cons s S ih =>
    rcases List.mem_cons.1 hx with rfl | hmem
    · have hxS : x ∉ S := (List.nodup_cons.1 hS).1
      simp [sum_map_ite_zero S x c hxS]
    · have hns : x ≠ s := fun h => (List.nodup_cons.1 hS).1 (h ▸ hmem)
      simp [hns, ih (List.nodup_cons.1 hS).2 hmem]

/-- Mapped sums split over pointwise addition. -/
theorem sum_map_add_pair (S : List Int) (f g : Int → Int) :
    (S.map (fun s => f s + g s)).sum = (S.map f).sum + (S.map g).sum := by
  induction S with
  | nil => simp
  | cons s S ih =>
    simp only [List.map_cons, List.sum_cons, ih]
    ring

/-- Grouping items by supplier over a duplicate-free supplier list covering
every item partitions the sum. -/
theorem sum_partition (S : List Int) (hS : S.Nodup)
    (items : List AllocationItem) (g : AllocationItem → Int)
    (hcover : ∀ it ∈ items, it.supplier ∈ S) :
    (S.map (fun s =>
      ((items.filter (fun it => it.supplier == s)).map g).sum)).sum
      = (items.map g).sum := by
  induction items with
  | nil => simp
  | cons it rest ih =>
    have hc : ∀ x ∈ rest, x.supplier ∈ S :=
      fun x hx => hcover x (List.mem_cons_of_mem _ hx)
    have key : ∀ s : Int,
        ((List.filter (fun x => x.supplier == s) (it :: rest)).map g).sum
          = (if it.supplier = s then g it else 0) +
            ((rest.filter (fun x => x.supplier == s)).map g).sum := by
      intro s
      rw [List.filter_cons]
      by_cases h : it.supplier = s
      · simp [h]
      · simp [h]
    calc (S.map (fun s =>
            ((List.filter (fun x => x.supplier == s) (it :: rest)).map g).sum)).sum
        = (S.map (fun s => (if it.supplier = s then g it else 0) +
            ((rest.filter (fun x => x.supplier == s)).map g).sum)).sum := by
          simp only [key]
      _ = (S.map (fun s => if it.supplier = s then g it else 0)).sum +
          (S.map (fun s =>
            ((rest.filter (fun x => x.supplier == s)).map g).sum)).sum :=
          sum_map_add_pair S _ _
      _ = g it + (rest.map g).sum := by
          rw [sum_map_ite_single S hS it.supplier (g it)
            (hcover it (List.mem_cons_self it rest)), ih hc]
      _ = ((it :: rest).map g).sum := by
          rw [List.map_cons, List.sum_cons]

/-- Specification of a successful supplier loop run: rows occupy the truck-id
window [tn, tn'), ids are nondecreasing with every id in the window used, no
truck is shared between suppliers, no truck exceeds its supplier's capacity,
and pallets are conserved per supplier group. -/
theorem packGo_spec (items : List AllocationItem) (reserve : ReserveInfo)
    (tmpl : Option TemplateData) (options : RunOptions) :
    ∀ (suppliers : List Int) (tn : Int) (rows : List OutputRow),
      packGo items reserve tmpl options suppliers tn = some rows →
      1 ≤ tn →
      ∃ tn', tn ≤ tn' ∧
        (∀ r ∈ rows, tn ≤ r.truck_id ∧ r.truck_id < tn' ∧
          r.supplier ∈ suppliers ∧ 1 ≤ r.pallets ∧
          r.volume = (r.pallets : ℚ) * r.pallet_weight ∧
          sumFor rows r.truck_id ≤ capFor reserve options r.supplier) ∧
        List.Chain' (· ≤ ·) (rowIds rows) ∧
        (∀ t, tn ≤ t → t < tn' → t ∈ rowIds rows) ∧
        (∀ r1 ∈ rows, ∀ r2 ∈ rows, r1.truck_id = r2.truck_id →
          r1.supplier = r2.supplier) ∧
        palletsSum rows = (suppliers.map (fun s =>
          ((items.filter (fun it => it.supplier == s)).map
            (fun it => max 0 it.pallets)).sum)).sum := by
  intro suppliers
  induction suppliers with
  | nil =>
    intro tn rows hrun htn
    unfold packGo at hrun
    simp only [Option.some.injEq] at hrun
    subst hrun
    refine ⟨tn, le_rfl, by simp, by simp [rowIds], ?_, by simp, by simp [palletsSum]⟩
    intro t h1 h2
    omega
  | cons s rest ih =>
    intro tn rows hrun htn
    unfold packGo at hrun
    dsimp only at hrun
    rcases hi : packItems (capFor reserve options s) s tmpl
        (sortBy itemLe (items.filter (fun it => it.supplier == s)))
        (PackState.mk tn 0 0) with _ | ⟨rows1, stMid⟩
    · rw [hi] at hrun
      exact absurd hrun (by simp)
    · rw [hi] at hrun
      dsimp only at hrun
      rcases hg : packGo items reserve tmpl options rest stMid.truckNext
        with _ | rows2
      · rw [hg] at hrun
        exact absurd hrun (by simp)
      · rw [hg] at hrun
        dsimp only at hrun
        simp only [Option.some.injEq] at hrun
        subst hrun
        have hinv0 : StInv (capFor reserve options s) (PackState.mk tn 0 0) :=
          ⟨le_rfl, le_max_right _ _, htn, fun h => absurd h (lt_irrefl 0)⟩
        obtain ⟨hseg, hsum1⟩ := packItems_spec _ _ _ _ _ _ _ hi hinv0
        obtain ⟨hiv, htn1, hlb1, hc1, hm1, hch1, hcov1, hsums1⟩ := hseg
        have htn1' : tn ≤ stMid.truckNext := htn1
        have htnMid : 1 ≤ stMid.truckNext := hiv.2.2.1
        obtain ⟨tn', htn', hm2, hch2, hcov2, hsame2, hsum2⟩ :=
          ih stMid.truckNext rows2 hg htnMid
        have hm1' : ∀ r ∈ rows1, tn ≤ r.truck_id ∧ r.truck_id < stMid.truckNext ∧
            r.supplier = s ∧ 1 ≤ r.pallets ∧
            r.volume = (r.pallets : ℚ) * r.pallet_weight := by
          intro r hr
          obtain ⟨ha, hb, hc, hd, he⟩ := hm1 r hr
          have ha' : lbState (PackState.mk tn 0 0) = tn := rfl
          rw [ha'] at ha
          exact ⟨ha, hb, hc, hd, he⟩
        have hz2 : ∀ t : Int, t < stMid.truckNext → sumFor rows2 t = 0 := by
          intro t ht
          refine sumFor_eq_zero ?_
          intro r2 hr2
          have := (hm2 r2 hr2).1
          omega
        have hz1 : ∀ t : Int, stMid.truckNext ≤ t → sumFor rows1 t = 0 := by
          intro t ht
          refine sumFor_eq_zero ?_
          intro r1 hr1
          have := (hm1' r1 hr1).2.1
          omega
        refine ⟨tn', le_trans htn1' htn', ?_, ?_, ?_, ?_, ?_⟩
        · intro r hr
          rcases List.mem_append.1 hr with h | h
          · obtain ⟨ha, hb, hc, hd, he⟩ := hm1' r h
            have hcap1 : 1 ≤ capFor reserve options s :=
              hc1 (List.ne_nil_of_mem h)
            refine ⟨ha, lt_of_lt_of_le hb htn', hc ▸ List.mem_cons_self s rest,
              hd, he, ?_⟩
            rw [sumFor_append, hz2 r.truck_id hb, hc]
            have hbud1 := hsums1 r.truck_id
            have hb0 : budget (capFor reserve options s) (PackState.mk tn 0 0)
                r.truck_id = capFor reserve options s := by
              unfold budget
              rw [if_pos ha]
            have hbmid : 0 ≤ budget (capFor reserve options s) stMid r.truck_id := by
              obtain ⟨q0, q1, q2, q3⟩ := hiv
              unfold budget
              split_ifs <;> omega
            omega
          · obtain ⟨ha, hb, hc, hd, he, hf⟩ := hm2 r h
            refine ⟨le_trans htn1' ha, hb, List.mem_cons_of_mem s hc, hd, he, ?_⟩
            rw [sumFor_append, hz1 r.truck_id ha]
            omega
        · rw [rowIds_append, List.chain'_append]
          refine ⟨hch1, hch2, ?_⟩
          intro x hx y hy
          rw [Option.mem_def] at hx hy
          have hx1 : x ∈ rowIds rows1 := List.mem_of_getLast?_eq_some hx
          have hy1 : y ∈ rowIds rows2 := List.mem_of_mem_head? hy
          obtain ⟨r, hr, rfl⟩ := List.mem_map.1 hx1
          obtain ⟨r2, hr2, rfl⟩ := List.mem_map.1 hy1
          have h1 := (hm1' r hr).2.1
          have h2 := (hm2 r2 hr2).1
          omega
        · intro t h1 h2
          rw [rowIds_append, List.mem_append]
          by_cases hmid : t < stMid.truckNext
          · exact Or.inl (hcov1 t h1 hmid)
          · exact Or.inr (hcov2 t (by omega) h2)
        · intro r1 hr1 r2 hr2 hid
          rcases List.mem_append.1 hr1 with h1 | h1 <;>
            rcases List.mem_append.1 hr2 with h2 | h2
          · rw [(hm1' r1 h1).2.2.1, (hm1' r2 h2).2.2.1]
          · have := (hm1' r1 h1).2.1
            have := (hm2 r2 h2).1
            omega
          · have := (hm2 r1 h1).1
            have := (hm1' r2 h2).2.1
            omega
          · exact hsame2 r1 h1 r2 h2 hid
        · rw [palletsSum_append, hsum2, List.map_cons, List.sum_cons, hsum1]
          have hperm := (sortBy_perm itemLe
            (items.filter (fun it => it.supplier == s))).map
            (fun it => max 0 it.pallets)
          rw [hperm.sum_eq]

/-- When every listed supplier has effective capacity at least 1, the
supplier loop succeeds. -/
theorem packGo_some (items : List AllocationItem) (reserve : ReserveInfo)
    (tmpl : Option TemplateData) (options : RunOptions) :
    ∀ (suppliers : List Int) (tn : Int), 1 ≤ tn →
      (∀ s ∈ suppliers, 1 ≤ capFor reserve options s) →
      ∃ rows, packGo items reserve tmpl options suppliers tn = some rows := by
  intro suppliers
  induction suppliers with
  | nil =>
    intro tn htn hcaps
    exact ⟨[], rfl⟩
  | cons s rest ih =>
    intro tn htn hcaps
    have hcap : 1 ≤ capFor reserve options s := hcaps s (List.mem_cons_self s rest)
    have hinv0 : StInv (capFor reserve options s) (PackState.mk tn 0 0) :=
      ⟨le_rfl, le_max_right _ _, htn, fun h => absurd h (lt_irrefl 0)⟩
    obtain ⟨rows1, stMid, hout, hinv1⟩ := packItems_some _ _ _ hcap _ _ hinv0
    obtain ⟨rows2, hrest⟩ := ih stMid.truckNext hinv1.2.2.1
      (fun x hx => hcaps x (List.mem_cons_of_mem s hx))
    refine ⟨rows1 ++ rows2, ?_⟩
    unfold packGo
    dsimp only
    rw [hout]
    dsimp only
    rw [hrest]

/-- C5: across one full pack_trucks run the distinct truck ids are exactly
the consecutive integers 1..N, allocated by one monotonically increasing
counter shared across all suppliers — never reset per supplier — and the
sequence of truck ids over the output row list is nondecreasing. -/
theorem truck_ids_consecutive (items : List AllocationItem)
    (reserve : ReserveInfo) (tmpl : Option TemplateData)
    (options : RunOptions) (rows : List OutputRow)
    (hrun : pack_trucks items reserve tmpl options = some rows) :
    List.Chain' (· ≤ ·) (rowIds rows) ∧
    ∃ N : Int, 0 ≤ N ∧ ∀ t : Int, t ∈ rowIds rows ↔ 1 ≤ t ∧ t ≤ N := by
  unfold pack_trucks at hrun
  obtain ⟨tn', h1, hmem, hch, hcov, _, _⟩ :=
    packGo_spec items reserve tmpl options _ 1 rows hrun le_rfl
  refine ⟨hch, tn' - 1, by omega, ?_⟩
  intro t
  constructor
  · intro ht
    obtain ⟨r, hr, rfl⟩ := List.mem_map.1 ht
    have := hmem r hr
    omega
  · rintro ⟨ht1, ht2⟩
    exact hcov t ht1 (by omega)

/-- C5 witness: packing a 5-pallet and a 3-pallet item for suppliers 7 and 3
at capacity 4 yields rows on trucks 1, 2, 3 in nondecreasing order. -/
theorem truck_ids_consecutive_witness :
    List.Chain' (· ≤ ·) (rowIds exRows) ∧
    ∃ N : Int, 0 ≤ N ∧ ∀ t : Int, t ∈ rowIds exRows ↔ 1 ≤ t ∧ t ≤ N :=
  truck_ids_consecutive [exItemB, exItemA] {} none exOpts4 exRows
    (by with_unfolding_all decide)

/-- C6: truck packing never exceeds capacity — for every output row, the
pallets of all rows carrying its truck id sum to at most the effective
capacity of its supplier — and every truck id is used by rows of a single
supplier only. -/
theorem truck_capacity_respected (items : List AllocationItem)
    (reserve : ReserveInfo) (tmpl : Option TemplateData)
    (options : RunOptions) (rows : List OutputRow)
    (hrun : pack_trucks items reserve tmpl options = some rows) :
    (∀ r ∈ rows, sumFor rows r.truck_id ≤ capFor reserve options r.supplier) ∧
    (∀ r1 ∈ rows, ∀ r2 ∈ rows, r1.truck_id = r2.truck_id →
      r1.supplier = r2.supplier) := by
  unfold pack_trucks at hrun
  obtain ⟨tn', _, hmem, _, _, hsame, _⟩ :=
    packGo_spec items reserve tmpl options _ 1 rows hrun le_rfl
  exact ⟨fun r hr => (hmem r hr).2.2.2.2.2, hsame⟩

/-- C6 witness: in the three-row run no truck exceeds capacity 4 and each
truck id belongs to one supplier. -/
theorem truck_capacity_respected_witness :
    (∀ r ∈ exRows, sumFor exRows r.truck_id ≤ capFor {} exOpts4 r.supplier) ∧
    (∀ r1 ∈ exRows, ∀ r2 ∈ exRows, r1.truck_id = r2.truck_id →
      r1.supplier = r2.supplier) :=
  truck_capacity_respected [exItemB, exItemA] {} none exOpts4 exRows
    (by with_unfolding_all decide)

/-- C10: pallet conservation in packing. When every referenced supplier has
effective capacity at least 1 (and item pallet counts are the non-negative
values the Builder produces), pack_trucks succeeds, its rows each carry at
least one pallet with volume = pallets x pallet weight (the weight copied
from the row's item), and the total pallet count is conserved from
allocation items to output rows. -/
theorem packing_conserves_pallets (items : List AllocationItem)
    (reserve : ReserveInfo) (tmpl : Option TemplateData) (options : RunOptions)
    (hcap : ∀ it ∈ items, 1 ≤ capFor reserve options it.supplier)
    (hnn : ∀ it ∈ items, 0 ≤ it.pallets) :
    ∃ rows, pack_trucks items reserve tmpl options = some rows ∧
      palletsSum rows = itemsPallets items ∧
      ∀ r ∈ rows, 1 ≤ r.pallets ∧
        r.volume = (r.pallets : ℚ) * r.pallet_weight := by
  have hSperm := sortBy_perm (fun a b : Int => decide (a ≤ b))
    (firstSeen (items.map (·.supplier)))
  have hSmem : ∀ s, s ∈ sortBy (fun a b : Int => decide (a ≤ b))
      (firstSeen (items.map (·.supplier))) ↔ s ∈ items.map (·.supplier) :=
    fun s => (hSperm.mem_iff).trans (firstSeen_mem _ s)
  have hSnodup : (sortBy (fun a b : Int => decide (a ≤ b))
      (firstSeen (items.map (·.supplier)))).Nodup :=
    (hSperm.nodup_iff).2 (firstSeen_nodup _)
  have hcaps : ∀ s ∈ sortBy (fun a b : Int => decide (a ≤ b))
      (firstSeen (items.map (·.supplier))), 1 ≤ capFor reserve options s := by
    intro s hs
    obtain ⟨it, hit, rfl⟩ := List.mem_map.1 ((hSmem s).1 hs)
    exact hcap it hit
  obtain ⟨rows, hrun⟩ := packGo_some items reserve tmpl options _ 1 le_rfl hcaps
  obtain ⟨tn', _, hmem, _, _, _, hsum⟩ :=
    packGo_spec items reserve tmpl options _ 1 rows hrun le_rfl
  refine ⟨rows, hrun, ?_,
    fun r hr => ⟨(hmem r hr).2.2.2.1, (hmem r hr).2.2.2.2.1⟩⟩
  rw [hsum, sum_partition _ hSnodup items _
    (fun it hit => (hSmem _).2 (List.mem_map_of_mem _ hit))]
  unfold itemsPallets
  congr 1
  apply List.map_congr_left
  intro it hit
  exact max_eq_right (hnn it hit)

/-- C10 witness: the two-item run succeeds, conserving 8 pallets into rows
of 3, 4 and 1 pallets with matching volumes. -/
theorem packing_conserves_pallets_witness :
    ∃ rows, pack_trucks [exItemB, exItemA] {} none exOpts4 = some rows ∧
      palletsSum rows = itemsPallets [exItemB, exItemA] ∧
      ∀ r ∈ rows, 1 ≤ r.pallets ∧
        r.volume = (r.pallets : ℚ) * r.pallet_weight :=
  packing_conserves_pallets [exItemB, exItemA] {} none exOpts4
    (by decide) (by decide)
